import Mathlib

/-!
# Verification development for `src/KiwiPy.cpp`

A shallow embedding of the orchestration layer of the Python binding of the
Kiwi morphological analyser: the offset repair of `resToPyList`, the lazy
engine cache of `KiwiObject` (`doPrepare`, `addUserWord`,
`loadUserDictionary`), the streaming iterator `KiwiResIter` driven by
`KiwiObject::analyze`, and the reader adapter `obj2reader`.

Conventions.

* `size_t` is a 64-bit unsigned integer and `uint32_t` a 32-bit one; both are
  natural numbers reduced modulo `2 ^ 64` resp. `2 ^ 32` wherever the C++
  arithmetic can wrap.
* A `std::u16string` is the list of its UTF-16 code units.
* C++ exceptions are the `Except.error` results; an object that survives an
  exception is returned next to the result, so that its state after a failed
  call can be inspected.
* The engine library (`kiwi/Kiwi.h`) is external: its types and operations are
  parameters (`Kiwi`, `KiwiLib`).
* `float` values (scores, the cut-off threshold) are only stored and handed on,
  never computed with; they are carried as integers.
-/

namespace KiwiPy

/-! ## Machine integers -/

/-- Modulus of `size_t`. -/
def SIZE_MOD : Nat := 2 ^ 64

/-- Modulus of `uint32_t`. -/
def U32_MOD : Nat := 2 ^ 32

/-- Subtraction of two values converted to `size_t`: it wraps modulo `2 ^ 64`. -/
def sizeSub (a b : Nat) : Nat := (a % SIZE_MOD + (SIZE_MOD - b % SIZE_MOD)) % SIZE_MOD

/-- Addition in `size_t`. -/
def sizeAdd (a b : Nat) : Nat := (a + b) % SIZE_MOD

/-- Multiplication in `size_t`. -/
def sizeMul (a b : Nat) : Nat := (a * b) % SIZE_MOD

/-- Store of a `size_t` value into a `uint32_t` field. -/
def toU32 (a : Nat) : Nat := a % U32_MOD

/-! ## Data model -/

/-- A `std::u16string`: its UTF-16 code units. -/
abbrev U16String := List Nat

/-- A `float` that is only carried through. -/
abbrev Score := Int

/-- The engine's `TokenInfo`: form, position and length in UTF-16 units, tag and
the morpheme it refers to. -/
structure TokenInfo where
  str : U16String
  position : Nat
  length : Nat
  tag : Nat
  morph : Nat
deriving DecidableEq, Repr

/-- The engine's `TokenResult`: one candidate, its tokens and its score. -/
abbrev TokenResult := List TokenInfo × Score

/-- The token object handed to the caller (`KiwiTokenObject`). -/
structure KiwiTokenObject where
  _form : U16String
  _tag : String
  _pos : Nat
  _len : Nat
  _morphId : Nat
  _morph : Nat
deriving DecidableEq, Repr

/-- The method `KiwiTokenObject::end`: `_pos + _len` in `uint32_t`. -/
def KiwiTokenObject.end (t : KiwiTokenObject) : Nat := (t._pos + t._len) % U32_MOD

/-- The list `resToPyList` builds: per candidate its token objects and its score. -/
abbrev PyResList := List (List KiwiTokenObject × Score)

/-- The handle `asyncAnalyze` returns (`std::future<vector<TokenResult>>`):
`value` is what `get()` delivers once the analysis has completed, `readyAt` the
moment it completes. `get()` blocks, so the binding never observes `readyAt`. -/
structure Future where
  value : Except String (List TokenResult)
  readyAt : Nat

/-- The compiled engine (`kiwi::Kiwi`), an external type: the members the binding
uses. `analyze` and `asyncAnalyze` take the text, the candidate count and the
match options. -/
structure Kiwi where
  ready : Bool
  getNumThreads : Nat
  cutOffThreshold : Int
  integrateAllomorph : Bool
  analyze : String → Nat → Nat → Except String (List TokenResult)
  asyncAnalyze : String → Nat → Nat → Future
  morphToId : Nat → Nat

/-! ## Offset repair (`resToPyList`) -/

/-- The test `(u & 0xFC00) == 0xD800` on one UTF-16 unit. -/
def isWide (u : Nat) : Bool := (u &&& 0xFC00) == 0xD800

/-- The inner loop of `resToPyList` over the units of one form: `u32chrs`, a
`size_t` counter incremented for every unit that passes the test. -/
def u32chrs (str : U16String) : Nat :=
  str.foldl (fun n u => if isWide u then sizeAdd n 1 else n) 0

/-- The loop of `resToPyList` over the tokens of one candidate, with the running
`size_t` counter `u32offset`. -/
def tokensToPy (tagToString : Nat → String) (kiwi : Kiwi) :
    Nat → List TokenInfo → List KiwiTokenObject
  | _, [] => []
  | u32offset, q :: qs =>
    { _form := q.str
      _tag := tagToString q.tag
      _pos := toU32 (sizeSub q.position u32offset)
      _len := toU32 (sizeSub q.length (u32chrs q.str))
      _morph := q.morph
      _morphId := kiwi.morphToId q.morph } ::
      tokensToPy tagToString kiwi (sizeAdd u32offset (u32chrs q.str)) qs

/-- The function `resToPyList`: every candidate is converted with `u32offset`
starting at 0. -/
def resToPyList (tagToString : Nat → String) (res : List TokenResult) (kiwi : Kiwi) :
    PyResList :=
  res.map (fun p => (tokensToPy tagToString kiwi 0 p.1, p.2))

/-! ### Quantities of the specification -/

/-- The number `w` of units `u` of a form with `(u & 0xFC00) == 0xD800`. -/
def wideCount (str : U16String) : Nat := str.countP isWide

/-- The sum `W_i` of `w_j` over the tokens `j < i` of a candidate. -/
def wideBefore (toks : List TokenInfo) (i : Nat) : Nat :=
  ((toks.take i).map (fun q => wideCount q.str)).sum

/-- A codepoint outside the basic range: one that UTF-16 encodes as a surrogate
pair. -/
def isWideChar (c : Char) : Bool := decide (0x10000 ≤ c.toNat)

/-- The number `k` of codepoints of a text outside the basic range. -/
def wideChars (text : String) : Nat := text.toList.countP isWideChar

/-- The number of UTF-16 units of a codepoint, the unit of the engine's positions
and lengths. -/
def utf16Width (c : Char) : Nat := if isWideChar c then 2 else 1

/-- The offset, in UTF-16 units, just behind the last codepoint outside the basic
range (0 when there is none): a token at or after it starts after all of
them. -/
def afterLastWide : List Char → Nat
  | [] => 0
  | c :: cs => if (c :: cs).any isWideChar then utf16Width c + afterLastWide cs else 0

/-! ## The engine library and the analyzer object -/

/-- The builder operations the binding can invoke; the analyzer object records
them, in order, in a ghost field. -/
inductive BuilderCall where
  | addWord
  | loadDictionary
  | build
deriving DecidableEq, Repr

/-- The external engine library as the binding uses it, over a builder state `B`:
the free functions `tagToString` and `toPOSTag`, the bound `POSTag::max`, the
builder operations `addWord`, `loadDictionary` (each returns its result, a
thrown exception included, and the builder afterwards) and `build` (a `const`
member), and the default-constructed engine `Kiwi{}`. The two last fields are
the contract of the specification's data model, in which an engine is either
the unbuilt sentinel or built: `ready()` is false on `Kiwi{}` and true on an
engine that `build` returns. -/
structure KiwiLib (B : Type) where
  tagToString : Nat → String
  toPOSTag : String → Nat
  posMax : Nat
  addWord : B → String → Nat → Score → Except String Bool × B
  loadDictionary : B → String → Except String Bool × B
  build : B → Except String Kiwi
  emptyKiwi : Kiwi
  emptyKiwi_unbuilt : emptyKiwi.ready = false
  build_ready : ∀ b k, build b = .ok k → k.ready = true

/-- The analyzer object `KiwiObject`: the builder, the engine, and the ghost
record of the builder operations invoked so far. -/
structure KiwiObject (B : Type) where
  builder : B
  kiwi : Kiwi
  calls : List BuilderCall

/-- Number of invocations of the build operation recorded so far. -/
def buildCount {B : Type} (self : KiwiObject B) : Nat := self.calls.count BuilderCall.build

/-- The method `KiwiObject::doPrepare`. When `build` throws, the assignment to
`kiwi` does not take place. -/
def KiwiObject.doPrepare {B : Type} (lib : KiwiLib B) (self : KiwiObject B) :
    Except String Unit × KiwiObject B :=
  if self.kiwi.ready then (.ok (), self)
  else
    match lib.build self.builder with
    | .ok k => (.ok (), { self with kiwi := k, calls := self.calls ++ [BuilderCall.build] })
    | .error e => (.error e, { self with calls := self.calls ++ [BuilderCall.build] })

/-- The method `KiwiObject::addUserWord`, after argument parsing. -/
def KiwiObject.addUserWord {B : Type} (lib : KiwiLib B) (self : KiwiObject B)
    (word tag : String) (score : Score) : Except String Bool × KiwiObject B :=
  let pos := lib.toPOSTag tag
  if pos ≥ lib.posMax then (.error ("Unknown tag value " ++ tag), self)
  else
    match lib.addWord self.builder word pos score with
    | (.error e, b) =>
      (.error e, { self with builder := b, calls := self.calls ++ [BuilderCall.addWord] })
    | (.ok ret, b) =>
      (.ok ret,
        { builder := b
          kiwi := if ret then lib.emptyKiwi else self.kiwi
          calls := self.calls ++ [BuilderCall.addWord] })

/-- The method `KiwiObject::loadUserDictionary`, after argument parsing. -/
def KiwiObject.loadUserDictionary {B : Type} (lib : KiwiLib B) (self : KiwiObject B)
    (path : String) : Except String Bool × KiwiObject B :=
  match lib.loadDictionary self.builder path with
  | (.error e, b) =>
    (.error e, { self with builder := b, calls := self.calls ++ [BuilderCall.loadDictionary] })
  | (.ok ret, b) =>
    (.ok ret,
      { builder := b
        kiwi := if ret then lib.emptyKiwi else self.kiwi
        calls := self.calls ++ [BuilderCall.loadDictionary] })

/-- A dictionary mutation call of the exposed surface. -/
inductive Mutation where
  | addUserWord (word tag : String) (score : Score)
  | loadUserDictionary (path : String)
deriving DecidableEq, Repr

/-- One mutation call on the analyzer. -/
def KiwiObject.mutate {B : Type} (lib : KiwiLib B) (self : KiwiObject B) :
    Mutation → Except String Bool × KiwiObject B
  | .addUserWord word tag score => self.addUserWord lib word tag score
  | .loadUserDictionary path => self.loadUserDictionary lib path

/-- A Python object as the pipeline sees it: a `str`, or anything else. -/
inductive PyObj where
  | str (s : String)
  | other (id : Nat)
deriving DecidableEq, Repr

/-- The iterator object `KiwiResIter` with the members of its base
`py::ResultIter`: the engine of the owning analyzer (read through
`kiwi->kiwi`; the analyzer is not mutated while the iterator lives), `topN`,
`matchOptions`, the input iterator (the elements not pulled yet) and the queue
of in-flight handles, oldest first. Two ghost fields record how many input
elements have been pulled and which input indices were handed to
`asyncAnalyze`. -/
structure KiwiResIter where
  kiwi : Kiwi
  topN : Nat
  matchOptions : Nat
  inputIter : List PyObj
  futures : List Future
  pulled : Nat
  submitted : List Nat

/-- The truncation `if (v.size() > topN) v.erase(v.begin() + topN, v.end())`. -/
def truncate (topN : Nat) (v : List TokenResult) : List TokenResult :=
  if v.length > topN then v.take topN else v

/-- The method `KiwiResIter::buildPy`. -/
def KiwiResIter.buildPy (tagToString : Nat → String) (self : KiwiResIter)
    (v : List TokenResult) : PyResList :=
  resToPyList tagToString (truncate self.topN v) self.kiwi

/-- The method `KiwiResIter::feedNext`. -/
def KiwiResIter.feedNext (self : KiwiResIter) (next : PyObj) : Except String Future :=
  match next with
  | .str s => .ok (self.kiwi.asyncAnalyze s self.topN self.matchOptions)
  | .other _ =>
    .error "`analyze` requires an instance of `str` or an iterable of `str`."

/-- Modelled from the spec: `py::ResultIter::feed` of `PyUtils.h`, which is not
among the sources. It attempts to pull one more input element and to submit it
with `feedNext`, appending the handle to the queue; it reports `false` when the
input is exhausted. The pulled element is consumed whether or not `feedNext`
accepts it. -/
def KiwiResIter.feed (self : KiwiResIter) : Except String Bool × KiwiResIter :=
  match self.inputIter with
  | [] => (.ok false, self)
  | item :: rest =>
    match self.feedNext item with
    | .error e => (.error e, { self with inputIter := rest, pulled := self.pulled + 1 })
    | .ok f =>
      (.ok true,
        { self with
          inputIter := rest
          futures := self.futures ++ [f]
          pulled := self.pulled + 1
          submitted := self.submitted ++ [self.pulled] })

/-- What one pull of the result iterator gives the consumer. -/
inductive Pulled where
  | result (r : PyResList)
  | endOfSequence
  | failure (msg : String)
  | noHandle
deriving DecidableEq, Repr

/-- Modelled from the spec: `py::ResultIter::iternext` of `PyUtils.h`, which is
not among the sources. One pull pops the oldest in-flight handle, waits for it
(`get()`), applies `buildPy` to the completed result and then attempts to feed
one more input element; a failure of the handle or of the feed is the outcome
of the pull. With an empty queue and an exhausted input it signals
end-of-sequence. The specification names no step for an empty queue while
input remains (possible only when nothing could be kept in flight); that
outcome is `noHandle` and changes nothing. -/
def KiwiResIter.iternext (tagToString : Nat → String) (self : KiwiResIter) :
    Pulled × KiwiResIter :=
  match self.futures with
  | [] =>
    match self.inputIter with
    | [] => (.endOfSequence, self)
    | _ :: _ => (.noHandle, self)
  | f :: rest =>
    let popped := { self with futures := rest }
    match f.value with
    | .error e => (.failure e, popped)
    | .ok v =>
      let r := popped.buildPy tagToString v
      match popped.feed with
      | (.error e, next) => (.failure e, next)
      | (.ok _, next) => (.result r, next)

/-- The prefetch window of `analyze`: `kiwi.getNumThreads() * 16`, a `size_t`. -/
def prefetchWindow (kiwi : Kiwi) : Nat := sizeMul kiwi.getNumThreads 16

/-- The priming loop of `analyze`:
`for (int i = 0; i < window; ++i) if (!ret->feed()) break;`, with `n` the
iterations left (the `int` counter is compared as a `size_t`; it stays far
below `2 ^ 31` on every input that fits in memory). -/
def prime : Nat → KiwiResIter → Except String Unit × KiwiResIter
  | 0, it => (.ok (), it)
  | n + 1, it =>
    match it.feed with
    | (.error e, next) => (.error e, next)
    | (.ok false, next) => (.ok (), next)
    | (.ok true, next) => prime n next

/-- The `text` argument of `analyze`: a `str`, an iterable with its elements, or
an object that is neither. -/
inductive AnalyzeArg where
  | text (s : String)
  | iterable (items : List PyObj)
  | notIterable
deriving DecidableEq, Repr

/-- What `analyze` returns: the result list of a single text, or the iterator. -/
inductive AnalyzeOut where
  | list (r : PyResList)
  | iter (it : KiwiResIter)

/-- The iterator `analyze` creates, before the priming loop: the engine of the
analyzer, the parameters, the input iterator, and no handle in flight. -/
def newResIter (kiwi : Kiwi) (topN matchOptions : Nat) (items : List PyObj) : KiwiResIter :=
  { kiwi := kiwi
    topN := topN
    matchOptions := matchOptions
    inputIter := items
    futures := []
    pulled := 0
    submitted := [] }

/-- The method `KiwiObject::analyze`, after argument parsing. -/
def KiwiObject.analyze {B : Type} (lib : KiwiLib B) (self : KiwiObject B)
    (text : AnalyzeArg) (topN matchOptions : Nat) :
    Except String AnalyzeOut × KiwiObject B :=
  match self.doPrepare lib with
  | (.error e, self1) => (.error e, self1)
  | (.ok (), self1) =>
    match text with
    | .text s =>
      match self1.kiwi.analyze s (max topN 10) matchOptions with
      | .error e => (.error e, self1)
      | .ok res =>
        (.ok (.list (resToPyList lib.tagToString (truncate topN res) self1.kiwi)), self1)
    | .notIterable =>
      (.error "`analyze` requires a `str` or an iterable of `str` parameters.", self1)
    | .iterable items =>
      let ret := newResIter self1.kiwi topN matchOptions items
      match prime (prefetchWindow self1.kiwi) ret with
      | (.error e, _) => (.error e, self1)
      | (.ok (), it) => (.ok (.iter it), self1)

/-- The iterator after `n` pulls. -/
def pullN (tagToString : Nat → String) : Nat → KiwiResIter → KiwiResIter
  | 0, it => it
  | n + 1, it => pullN tagToString n (it.iternext tagToString).2

/-- The outcomes of `n` successive pulls. -/
def drain (tagToString : Nat → String) : Nat → KiwiResIter → List Pulled
  | 0, _ => []
  | n + 1, it =>
    (it.iternext tagToString).1 :: drain tagToString n (it.iternext tagToString).2

/-- The inner closure of `obj2reader`, one call: `iter` holds the lines not pulled
yet. An exhausted iterator gives the empty string; an empty line gets a blank
(`' '`, unit 32) pushed onto it. -/
def readerCall (iter : List U16String) : U16String × List U16String :=
  match iter with
  | [] => ([], [])
  | item :: rest =>
    let ret := item
    (if ret.isEmpty then ret ++ [32] else ret, rest)

/-- The outer closure of `obj2reader`: a reader starts with a fresh iterator over
the lines of `obj`. -/
def obj2reader (obj : List U16String) : List U16String := obj

/-- The value the `k`-th call (`k = 0, 1, ...`) of a reader returns. -/
def readerNth : Nat → List U16String → U16String
  | 0, iter => (readerCall iter).1
  | k + 1, iter => readerNth k (readerCall iter).2

/-! ## Specification-side notions for the streaming pipeline -/

/-- The outcome the consumer is owed for the input text `t`: the engine result of
the asynchronous analysis of `t`, truncated and offset-repaired, or the failure
the engine reported for it. -/
def streamOutcome (tagToString : Nat → String) (kiwi : Kiwi) (topN matchOptions : Nat)
    (t : String) : Pulled :=
  match (kiwi.asyncAnalyze t topN matchOptions).value with
  | .ok v => .result (resToPyList tagToString (truncate topN v) kiwi)
  | .error e => .failure e

/-- The iterator `it` works for the engine `kiwi` with the given parameters, the
handles in flight are those of the texts `fs`, in order, and the texts `rest`
are still to be pulled. -/
def InFlight (kiwi : Kiwi) (topN matchOptions : Nat) (fs rest : List String)
    (it : KiwiResIter) : Prop :=
  it.kiwi = kiwi ∧ it.topN = topN ∧ it.matchOptions = matchOptions
    ∧ it.futures = fs.map (fun t => kiwi.asyncAnalyze t topN matchOptions)
    ∧ it.inputIter = rest.map PyObj.str

/-- A tag table for the examples. -/
def exTagToString (tag : Nat) : String := if tag = 0 then "NNP" else "UN"

/-- A candidate whose first token is one character outside the basic plane (the
surrogate pair `D83D DE00`) and whose second token is the letter `a`. -/
def exCandidate : TokenResult :=
  ([{ str := [0xD83D, 0xDE00], position := 0, length := 2, tag := 0, morph := 7 },
    { str := [0x61], position := 2, length := 1, tag := 1, morph := 8 }], -3)

/-- The candidates the example engine returns for a text of length `len` when
asked for `n` candidates: `n` of them, one token over the whole text each, with
the scores `n, n - 1, ..., 1`, so that a result shows the count the engine was
asked for. -/
def exCandidates (len n : Nat) : List TokenResult :=
  (List.range n).map (fun i =>
    ([{ str := [], position := 0, length := len, tag := 0, morph := i }],
      (n : Int) - (i : Int)))

/-- An engine for the examples: one thread; both analyses return
`exCandidates`, and the asynchronous analysis of a longer text completes
later. -/
def exKiwi : Kiwi :=
  { ready := true
    getNumThreads := 1
    cutOffThreshold := 5
    integrateAllomorph := true
    analyze := fun s n _ => .ok (exCandidates s.length n)
    asyncAnalyze := fun s n _ =>
      { value := .ok (exCandidates s.length n), readyAt := s.length }
    morphToId := fun m => m }

/-- A library for the examples, the builder being the list of its dictionary
entries: `addWord` and `loadDictionary` report whether the entry is new, an
empty word or path makes them throw, `build` throws while the dictionary holds
the entry `"broken"` and otherwise compiles `exKiwi`. -/
def exLib : KiwiLib (List String) :=
  { tagToString := exTagToString
    toPOSTag := fun tag => if tag = "NNP" then 0 else if tag = "NNG" then 1 else 60
    posMax := 50
    addWord := fun b w _ _ =>
      if w = "" then (.error "empty word", b)
      else (.ok (!b.contains w), if b.contains w then b else b ++ [w])
    loadDictionary := fun b path =>
      if path = "" then (.error "cannot open the dictionary", b)
      else (.ok (!b.contains path), if b.contains path then b else b ++ [path])
    build := fun b => if b.contains "broken" then .error "build failed" else .ok exKiwi
    emptyKiwi := { exKiwi with ready := false }
    emptyKiwi_unbuilt := rfl
    build_ready := fun b k h => by
      beta_reduce at h
      split at h
      · cases h
      · cases h
        rfl }

/-- An analyzer over `exLib` with an empty user dictionary and a built engine. -/
def exBuilt : KiwiObject (List String) := { builder := [], kiwi := exKiwi, calls := [] }

/-- An analyzer over `exLib` with an empty user dictionary and no engine yet. -/
def exFresh : KiwiObject (List String) :=
  { builder := [], kiwi := exLib.emptyKiwi, calls := [] }

/-- An analyzer over `exLib` whose dictionary makes `build` throw, with no engine
yet. -/
def exBroken : KiwiObject (List String) :=
  { builder := ["broken"], kiwi := exLib.emptyKiwi, calls := [] }

/-- The tokens of an engine that analyses the letters of the basic range only: one
token per such codepoint, at its offset in UTF-16 units, and no token for a
codepoint outside the basic range. -/
def letterTokens : Nat → List Char → List TokenInfo
  | _, [] => []
  | off, c :: cs =>
    if isWideChar c then letterTokens (off + 2) cs
    else
      { str := [c.toNat], position := off, length := 1, tag := 0, morph := 0 } ::
        letterTokens (off + 1) cs

/-- An engine for the examples that returns one candidate, `letterTokens` of the
text. -/
def exLetterKiwi : Kiwi :=
  { ready := true
    getNumThreads := 1
    cutOffThreshold := 5
    integrateAllomorph := true
    analyze := fun s _ _ => .ok [(letterTokens 0 s.toList, 0)]
    asyncAnalyze := fun s _ _ =>
      { value := .ok [(letterTokens 0 s.toList, 0)], readyAt := s.length }
    morphToId := fun m => m }

/-- An analyzer over `exLib` that holds the engine `exLetterKiwi`. -/
def exLetters : KiwiObject (List String) :=
  { builder := [], kiwi := exLetterKiwi, calls := [] }

/-- The text of two codepoints `U+1F600` and `a`: one codepoint outside the basic
range, followed at UTF-16 offset 2 by a letter. -/
def exWideText : String := String.mk [Char.ofNat 0x1F600, Char.ofNat 0x61]

/-! ## Lemmas on the offset repair -/

theorem u32chrs_fold (str : U16String) (n : Nat) (hn : n < SIZE_MOD) :
    str.foldl (fun n u => if isWide u then sizeAdd n 1 else n) n
      = (n + wideCount str) % SIZE_MOD := by
  induction str generalizing n with
  | nil => simp [wideCount, Nat.mod_eq_of_lt hn]
  | cons u us ih =>
    simp only [List.foldl_cons]
    by_cases hu : isWide u = true
    · have hlt : sizeAdd n 1 < SIZE_MOD := Nat.mod_lt _ (by unfold SIZE_MOD; positivity)
      rw [if_pos hu, ih _ hlt]
      simp only [wideCount, List.countP_cons_of_pos _ _ hu, sizeAdd]
      unfold SIZE_MOD
      omega
    · rw [if_neg hu, ih _ hn]
      simp [wideCount, List.countP_cons_of_neg _ _ hu]

theorem u32chrs_eq (str : U16String) : u32chrs str = wideCount str % SIZE_MOD := by
  have h := u32chrs_fold str 0 (by unfold SIZE_MOD; positivity)
  simpa [u32chrs] using h

theorem repair_arith (p off w : Nat) :
    ((toU32 (sizeSub p off) : Nat) : Int) = ((p : Int) - (off : Int)) % (2 : Int) ^ 32
    ∧ sizeAdd off (w % SIZE_MOD) % SIZE_MOD = (off + w) % SIZE_MOD := by
  unfold toU32 sizeSub sizeAdd SIZE_MOD U32_MOD
  constructor <;> omega

theorem wideBefore_zero (toks : List TokenInfo) : wideBefore toks 0 = 0 := by
  simp [wideBefore]

theorem wideBefore_succ (q : TokenInfo) (qs : List TokenInfo) (i : Nat) :
    wideBefore (q :: qs) (i + 1) = wideCount q.str + wideBefore qs i := by
  simp [wideBefore]

/-- Token `i` of the converted candidate, for an arbitrary starting value `off` of
the running counter. -/
theorem tokensToPy_getElem (tagToString : Nat → String) (kiwi : Kiwi) :
    ∀ (toks : List TokenInfo) (off i : Nat) (q : TokenInfo), toks[i]? = some q →
      ∃ t, (tokensToPy tagToString kiwi off toks)[i]? = some t
        ∧ t._form = q.str ∧ t._tag = tagToString q.tag
        ∧ t._morph = q.morph ∧ t._morphId = kiwi.morphToId q.morph
        ∧ (t._pos : Int)
            = ((q.position : Int) - (off : Int) - (wideBefore toks i : Int)) % (2 : Int) ^ 32
        ∧ (t._len : Int) = ((q.length : Int) - (wideCount q.str : Int)) % (2 : Int) ^ 32 := by
  intro toks
  induction toks with
  | nil => intro off i q h; simp at h
  | cons q0 qs ih =>
    intro off i q h
    cases i with
    | zero =>
      simp only [List.getElem?_cons_zero, Option.some.injEq] at h
      subst h
      refine ⟨_, List.getElem?_cons_zero, rfl, rfl, rfl, rfl, ?_, ?_⟩
      · have h1 := (repair_arith q0.position off 0).1
        simp only [wideBefore_zero]
        simpa using h1
      · have h1 := (repair_arith q0.length (u32chrs q0.str) 0).1
        have h2 := u32chrs_eq q0.str
        rw [h1, h2]
        unfold SIZE_MOD
        omega
    | succ i =>
      simp only [List.getElem?_cons_succ] at h
      obtain ⟨t, ht, hf, htag, hm, hid, hpos, hlen⟩ :=
        ih (sizeAdd off (u32chrs q0.str)) i q h
      refine ⟨t, by simpa [tokensToPy] using ht, hf, htag, hm, hid, ?_, hlen⟩
      rw [hpos, wideBefore_succ, u32chrs_eq]
      unfold sizeAdd SIZE_MOD
      omega

theorem tokensToPy_length (tagToString : Nat → String) (kiwi : Kiwi) :
    ∀ (toks : List TokenInfo) (off : Nat),
      (tokensToPy tagToString kiwi off toks).length = toks.length := by
  intro toks
  induction toks with
  | nil => intro off; rfl
  | cons q qs ih => intro off; simp [tokensToPy, ih]

theorem resToPyList_length (tagToString : Nat → String) (res : List TokenResult)
    (kiwi : Kiwi) : (resToPyList tagToString res kiwi).length = res.length := by
  simp [resToPyList]

theorem resToPyList_getElem (tagToString : Nat → String) (res : List TokenResult)
    (kiwi : Kiwi) (c : Nat) :
    (resToPyList tagToString res kiwi)[c]?
      = (res[c]?).map (fun p => (tokensToPy tagToString kiwi 0 p.1, p.2)) := by
  simp [resToPyList]

/-! ## C1: offset repair -/

/-- C1. Offset repair of `resToPyList`: for every candidate `cand` of a result and
every token `q` at index `i` of that candidate, the converted list holds at the
same place a token object whose start is `q.position` minus `W_i` and whose
length is `q.length` minus `w_i`, the subtractions being those of the `uint32_t`
fields (modulo `2 ^ 32`), hence the exact differences whenever these are not
negative. `w_i` counts the units of the form with `(u & 0xFC00) == 0xD800` and
`W_i` sums `w_j` over the tokens `j < i` of the same candidate only: the running
counter starts at 0 for every candidate. -/
theorem resToPyList_offset_repair (tagToString : Nat → String) (kiwi : Kiwi)
    (res : List TokenResult) (c i : Nat) (cand : TokenResult) (q : TokenInfo)
    (hc : res[c]? = some cand) (hq : cand.1[i]? = some q) :
    ∃ toks t, (resToPyList tagToString res kiwi)[c]? = some (toks, cand.2)
      ∧ toks.length = cand.1.length ∧ toks[i]? = some t ∧ t._form = q.str
      ∧ (t._pos : Int)
          = ((q.position : Int) - (wideBefore cand.1 i : Int)) % (2 : Int) ^ 32
      ∧ (t._len : Int) = ((q.length : Int) - (wideCount q.str : Int)) % (2 : Int) ^ 32
      ∧ (wideBefore cand.1 i ≤ q.position → q.position < 2 ^ 32 →
          t._pos = q.position - wideBefore cand.1 i)
      ∧ (wideCount q.str ≤ q.length → q.length < 2 ^ 32 →
          t._len = q.length - wideCount q.str) := by
  obtain ⟨t, ht, hf, -, -, -, hpos, hlen⟩ := tokensToPy_getElem tagToString kiwi cand.1 0 i q hq
  refine ⟨tokensToPy tagToString kiwi 0 cand.1, t, ?_, tokensToPy_length _ _ _ _, ht, hf,
    ?_, hlen, ?_, ?_⟩
  · rw [resToPyList_getElem, hc]; rfl
  · rw [hpos]; simp
  · intro h1 h2; omega
  · intro h1 h2; omega

/-- Witness of C1 on `exCandidate`: its second token, at position 2 behind one wide
character, is reported at start 1 with length 1. -/
theorem resToPyList_offset_repair_witness :
    ∃ toks t, (resToPyList exTagToString [exCandidate] exKiwi)[0]? = some (toks, -3)
      ∧ toks[1]? = some t ∧ t._pos = 1 ∧ t._len = 1 := by
  obtain ⟨toks, t, h1, -, h2, -, -, -, h3, h4⟩ :=
    resToPyList_offset_repair exTagToString exKiwi [exCandidate] 0 1 exCandidate
      { str := [0x61], position := 2, length := 1, tag := 1, morph := 8 } rfl rfl
  exact ⟨toks, t, h1, h2, h3 (by decide) (by decide), h4 (by decide) (by decide)⟩

/-! ## Lemmas on the streaming pipeline -/

theorem feed_text (it : KiwiResIter) (t : String) (rest : List PyObj)
    (h : it.inputIter = PyObj.str t :: rest) :
    it.feed = (.ok true,
      { it with
        inputIter := rest
        futures := it.futures ++ [it.kiwi.asyncAnalyze t it.topN it.matchOptions]
        pulled := it.pulled + 1
        submitted := it.submitted ++ [it.pulled] }) := by
  simp [KiwiResIter.feed, h, KiwiResIter.feedNext]

theorem feed_exhausted (it : KiwiResIter) (h : it.inputIter = []) :
    it.feed = (.ok false, it) := by
  simp [KiwiResIter.feed, h]

theorem feed_inFlight (kiwi : Kiwi) (topN mo : Nat) (fs : List String) (t : String)
    (rest : List String) (it : KiwiResIter) (h : InFlight kiwi topN mo fs (t :: rest) it) :
    ∃ next, it.feed = (.ok true, next) ∧ InFlight kiwi topN mo (fs ++ [t]) rest next := by
  obtain ⟨hk, hn, hm, hf, hi⟩ := h
  refine ⟨_, feed_text it t (rest.map PyObj.str) (by simpa using hi), ?_⟩
  refine ⟨hk, hn, hm, ?_, rfl⟩
  simp [hf, hk, hn, hm]

theorem prime_inFlight (kiwi : Kiwi) (topN mo : Nat) :
    ∀ (n : Nat) (fs rest : List String) (it : KiwiResIter),
      InFlight kiwi topN mo fs rest it →
      ∃ next, prime n it = (.ok (), next)
        ∧ InFlight kiwi topN mo (fs ++ rest.take n) (rest.drop n) next := by
  intro n
  induction n with
  | zero => intro fs rest it h; exact ⟨it, rfl, by simpa using h⟩
  | succ n ih =>
    intro fs rest it h
    cases rest with
    | nil =>
      refine ⟨it, ?_, by simpa using h⟩
      have hi : it.inputIter = [] := by simpa using h.2.2.2.2
      simp [prime, feed_exhausted it hi]
    | cons t rest =>
      obtain ⟨mid, hfeed, hmid⟩ := feed_inFlight kiwi topN mo fs t rest it h
      obtain ⟨next, hprime, hnext⟩ := ih (fs ++ [t]) rest mid hmid
      refine ⟨next, ?_, by simpa using hnext⟩
      simp [prime, hfeed, hprime]

theorem drain_exhausted (tagToString : Nat → String) (kiwi : Kiwi) (topN mo : Nat) :
    ∀ (n : Nat) (it : KiwiResIter), InFlight kiwi topN mo [] [] it →
      drain tagToString n it = List.replicate n Pulled.endOfSequence := by
  intro n
  induction n with
  | zero => intro it _; rfl
  | succ n ih =>
    intro it h
    have hf : it.futures = [] := by simpa using h.2.2.2.1
    have hi : it.inputIter = [] := by simpa using h.2.2.2.2
    have hstep : it.iternext tagToString = (Pulled.endOfSequence, it) := by
      simp [KiwiResIter.iternext, hf, hi]
    simp [drain, hstep, ih it h, List.replicate_succ]

theorem iternext_inFlight (tagToString : Nat → String) (kiwi : Kiwi) (topN mo : Nat)
    (f : String) (fs rest : List String) (it : KiwiResIter)
    (h : InFlight kiwi topN mo (f :: fs) rest it) (v : List TokenResult)
    (hv : (kiwi.asyncAnalyze f topN mo).value = .ok v) :
    (it.iternext tagToString).1
        = Pulled.result (resToPyList tagToString (truncate topN v) kiwi)
      ∧ InFlight kiwi topN mo (fs ++ rest.take 1) (rest.drop 1) (it.iternext tagToString).2 := by
  obtain ⟨k0, n0, m0, inp, futs, pul, sub⟩ := it
  obtain ⟨hk, hn, hm, hf, hi⟩ := h
  simp only at hk hn hm hf hi
  subst hk hn hm hf hi
  cases rest <;>
    simp [KiwiResIter.iternext, hv, KiwiResIter.feed, KiwiResIter.feedNext,
      KiwiResIter.buildPy, InFlight]

theorem drain_inFlight (tagToString : Nat → String) (kiwi : Kiwi) (topN mo : Nat) (m : Nat) :
    ∀ (k : Nat) (fs rest : List String) (it : KiwiResIter),
      fs.length + rest.length = k →
      InFlight kiwi topN mo fs rest it →
      (fs = [] → rest = []) →
      (∀ t ∈ fs ++ rest, ∃ v, (kiwi.asyncAnalyze t topN mo).value = .ok v) →
      drain tagToString (k + (m + 1)) it
        = (fs ++ rest).map (streamOutcome tagToString kiwi topN mo)
          ++ List.replicate (m + 1) Pulled.endOfSequence := by
  intro k
  induction k with
  | zero =>
    intro fs rest it hlen h _ _
    have hfs : fs = [] := List.length_eq_zero.mp (by omega)
    have hrest : rest = [] := List.length_eq_zero.mp (by omega)
    subst hfs hrest
    simpa using drain_exhausted tagToString kiwi topN mo (m + 1) it h
  | succ k ih =>
    intro fs rest it hlen h hne hok
    cases fs with
    | nil =>
      have hrest := hne rfl
      subst hrest
      simp at hlen
    | cons f fs =>
      obtain ⟨v, hv⟩ := hok f (by simp)
      obtain ⟨hout, hnext⟩ := iternext_inFlight tagToString kiwi topN mo f fs rest it h v hv
      have hrec := ih (fs ++ rest.take 1) (rest.drop 1) (it.iternext tagToString).2
        (by cases rest <;> simp at hlen ⊢ <;> omega) hnext
        (by cases rest <;> simp)
        (by
          intro t ht
          apply hok t
          cases rest with
          | nil => simpa using Or.inr ht
          | cons r rs =>
            simp only [List.take_succ_cons, List.take_zero, List.drop_succ_cons, List.drop_zero,
              List.append_assoc, List.singleton_append] at ht
            simpa using Or.inr ht)
      have hso : streamOutcome tagToString kiwi topN mo f
          = Pulled.result (resToPyList tagToString (truncate topN v) kiwi) := by
        simp [streamOutcome, hv]
      have hsplit : (fs ++ rest.take 1) ++ rest.drop 1 = fs ++ rest := by
        rw [List.append_assoc, List.take_append_drop]
      have hk1 : k + 1 + (m + 1) = (k + (m + 1)) + 1 := by omega
      rw [hk1]
      rw [drain, hout, hrec, hsplit, List.cons_append, List.map_cons, hso, List.cons_append]

theorem analyze_iterable_eq {B : Type} (lib : KiwiLib B) (self self1 : KiwiObject B)
    (items : List PyObj) (topN mo : Nat) (it : KiwiResIter)
    (hd : self.doPrepare lib = (.ok (), self1))
    (hp : prime (prefetchWindow self1.kiwi)
        (newResIter self1.kiwi topN mo items) = (.ok (), it)) :
    self.analyze lib (.iterable items) topN mo = (.ok (.iter it), self1) := by
  simp [KiwiObject.analyze, hd, hp]

theorem analyze_iterable_inv {B : Type} (lib : KiwiLib B) (self self1 : KiwiObject B)
    (items : List PyObj) (topN mo : Nat) (it : KiwiResIter)
    (h : self.analyze lib (.iterable items) topN mo = (.ok (.iter it), self1)) :
    self.doPrepare lib = (.ok (), self1)
      ∧ prime (prefetchWindow self1.kiwi)
        (newResIter self1.kiwi topN mo items) = (.ok (), it) := by
  unfold KiwiObject.analyze at h
  split at h
  · simp at h
  · rename_i s1 hd
    simp only at h
    split at h
    · simp at h
    · rename_i it1 hp
      simp only [Prod.mk.injEq, Except.ok.injEq, AnalyzeOut.iter.injEq] at h
      obtain ⟨h1, h2⟩ := h
      subst h1 h2
      exact ⟨hd, hp⟩

theorem feed_kiwi (it : KiwiResIter) : it.feed.2.kiwi = it.kiwi := by
  unfold KiwiResIter.feed
  split
  · rfl
  · split <;> rfl

theorem feed_futures_le (it : KiwiResIter) :
    it.feed.2.futures.length ≤ it.futures.length + 1 := by
  unfold KiwiResIter.feed
  split
  · simp
  · split <;> simp

theorem prime_kiwi : ∀ (n : Nat) (it : KiwiResIter), (prime n it).2.kiwi = it.kiwi := by
  intro n
  induction n with
  | zero => intro it; rfl
  | succ n ih =>
    intro it
    have hk := feed_kiwi it
    unfold prime
    split
    · rename_i h; rw [h] at hk; exact hk
    · rename_i h; rw [h] at hk; exact hk
    · rename_i h; rw [h] at hk; rw [ih]; exact hk

theorem prime_futures_le :
    ∀ (n : Nat) (it : KiwiResIter), (prime n it).2.futures.length ≤ it.futures.length + n := by
  intro n
  induction n with
  | zero => intro it; simp [prime]
  | succ n ih =>
    intro it
    have hk := feed_futures_le it
    unfold prime
    split
    · rename_i h; rw [h] at hk; simp only at hk ⊢; omega
    · rename_i h; rw [h] at hk; simp only at hk ⊢; omega
    · rename_i next h; rw [h] at hk; simp only at hk; have := ih next; omega

/-- The iterator after one pull: unchanged, or with the oldest handle popped, or
with the oldest handle popped and one feed done. -/
theorem iternext_cases (tagToString : Nat → String) (it : KiwiResIter) :
    (it.iternext tagToString).2 = it
      ∨ ∃ f rest, it.futures = f :: rest
          ∧ ((it.iternext tagToString).2 = { it with futures := rest }
            ∨ (it.iternext tagToString).2
                = ({ it with futures := rest } : KiwiResIter).feed.2) := by
  obtain ⟨k0, n0, m0, inp, futs, pul, sub⟩ := it
  cases futs with
  | nil => left; cases inp <;> rfl
  | cons f rest =>
    right
    refine ⟨f, rest, rfl, ?_⟩
    simp only [KiwiResIter.iternext]
    cases f.value with
    | error e => left; rfl
    | ok v =>
      right
      simp only
      split <;> rename_i h <;> rw [h]

theorem iternext_kiwi (tagToString : Nat → String) (it : KiwiResIter) :
    (it.iternext tagToString).2.kiwi = it.kiwi := by
  rcases iternext_cases tagToString it with h | ⟨f, rest, -, h | h⟩
  · rw [h]
  · rw [h]
  · rw [h, feed_kiwi]

theorem iternext_futures_le (tagToString : Nat → String) (it : KiwiResIter) :
    (it.iternext tagToString).2.futures.length ≤ it.futures.length := by
  rcases iternext_cases tagToString it with h | ⟨f, rest, hf, h | h⟩
  · rw [h]
  · rw [h, hf]; simp
  · rw [h, hf]
    have := feed_futures_le { it with futures := rest }
    simpa using this

theorem pullN_kiwi (tagToString : Nat → String) :
    ∀ (n : Nat) (it : KiwiResIter), (pullN tagToString n it).kiwi = it.kiwi := by
  intro n
  induction n with
  | zero => intro it; rfl
  | succ n ih => intro it; rw [pullN, ih, iternext_kiwi]

theorem pullN_futures_le (tagToString : Nat → String) :
    ∀ (n : Nat) (it : KiwiResIter),
      (pullN tagToString n it).futures.length ≤ it.futures.length := by
  intro n
  induction n with
  | zero => intro it; exact Nat.le_refl _
  | succ n ih =>
    intro it
    rw [pullN]
    exact Nat.le_trans (ih _) (iternext_futures_le tagToString it)

theorem prefetchWindow_le (kiwi : Kiwi) : prefetchWindow kiwi ≤ 16 * kiwi.getNumThreads := by
  unfold prefetchWindow sizeMul
  have := Nat.mod_le (kiwi.getNumThreads * 16) SIZE_MOD
  omega

/-! ## C2: order preservation of the streaming pipeline -/

/-- C2. Order preservation: let the engine be the one `analyze` works with after
`doPrepare` has succeeded, let its prefetch window `getNumThreads() * 16` be
positive, and let the asynchronous analyses of the `N` input texts deliver the
results `vs` (one per text, in input order). Then `analyze` returns an iterator, and
pulling it `N + 1 + m` times yields exactly the `N` truncated and
offset-repaired results, the `i`-th one that of the `i`-th input, followed by
end-of-sequence at every further pull. Nothing is assumed on the completion
times `readyAt` of the handles. -/
theorem analyze_stream_order {B : Type} (lib : KiwiLib B) (self : KiwiObject B)
    (texts : List String) (topN mo : Nat) (vs : List (List TokenResult)) (m : Nat)
    (hprep : (self.doPrepare lib).1 = .ok ())
    (hwin : 0 < prefetchWindow (self.doPrepare lib).2.kiwi)
    (hres : texts.map (fun t => ((self.doPrepare lib).2.kiwi.asyncAnalyze t topN mo).value)
        = vs.map Except.ok) :
    ∃ it, (self.analyze lib (.iterable (texts.map PyObj.str)) topN mo).1 = .ok (.iter it)
      ∧ drain lib.tagToString (texts.length + (m + 1)) it
        = vs.map (fun v => Pulled.result
              (resToPyList lib.tagToString (truncate topN v) (self.doPrepare lib).2.kiwi))
          ++ List.replicate (m + 1) Pulled.endOfSequence := by
  obtain ⟨it, hprime, hfl⟩ := prime_inFlight (self.doPrepare lib).2.kiwi topN mo
    (prefetchWindow (self.doPrepare lib).2.kiwi) [] texts
    (newResIter (self.doPrepare lib).2.kiwi topN mo (texts.map PyObj.str))
    ⟨rfl, rfl, rfl, rfl, rfl⟩
  refine ⟨it, ?_, ?_⟩
  · rw [analyze_iterable_eq lib self (self.doPrepare lib).2 _ topN mo it
      (Prod.ext hprep rfl) hprime]
  · have hok : ∀ t ∈ texts,
        ∃ v, ((self.doPrepare lib).2.kiwi.asyncAnalyze t topN mo).value = .ok v := by
      intro t ht
      have hmem : ((self.doPrepare lib).2.kiwi.asyncAnalyze t topN mo).value
          ∈ vs.map Except.ok := by
        rw [← hres]; exact List.mem_map.mpr ⟨t, ht, rfl⟩
      obtain ⟨v, -, hv⟩ := List.mem_map.mp hmem
      exact ⟨v, hv.symm⟩
    have hmap : texts.map (streamOutcome lib.tagToString (self.doPrepare lib).2.kiwi topN mo)
        = vs.map (fun v => Pulled.result
            (resToPyList lib.tagToString (truncate topN v) (self.doPrepare lib).2.kiwi)) := by
      have h := congrArg (List.map (fun (x : Except String (List TokenResult)) =>
        match x with
        | .ok v => Pulled.result
            (resToPyList lib.tagToString (truncate topN v) (self.doPrepare lib).2.kiwi)
        | .error e => Pulled.failure e)) hres
      simpa [List.map_map, Function.comp_def, streamOutcome] using h
    have hdrain := drain_inFlight lib.tagToString (self.doPrepare lib).2.kiwi topN mo m
      texts.length _ _ it (by simp only [List.nil_append, List.length_take, List.length_drop]; omega) hfl
      (by
        intro h0
        simp only [List.nil_append, List.take_eq_nil_iff] at h0
        rcases h0 with h0 | h0
        · omega
        · simp [h0])
      (by simpa using hok)
    simpa [hmap] using hdrain

/-- Witness of C2: two texts streamed through `exKiwi`, whose second handle
completes before its first. -/
theorem analyze_stream_order_witness :
    ∃ it, (exBuilt.analyze exLib (.iterable [PyObj.str "ab", PyObj.str "c"]) 1 0).1
        = .ok (.iter it)
      ∧ drain exTagToString 3 it
        = [Pulled.result [([{ _form := [], _tag := "NNP", _pos := 0, _len := 2,
                               _morphId := 0, _morph := 0 }], 1)],
           Pulled.result [([{ _form := [], _tag := "NNP", _pos := 0, _len := 1,
                               _morphId := 0, _morph := 0 }], 1)],
           Pulled.endOfSequence] :=
  analyze_stream_order exLib exBuilt ["ab", "c"] 1 0
    [[([{ str := [], position := 0, length := 2, tag := 0, morph := 0 }], 1)],
     [([{ str := [], position := 0, length := 1, tag := 0, morph := 0 }], 1)]] 0
    rfl (by decide) rfl

/-! ## C3: window bound -/

/-- C3. Window bound: when `analyze` has returned the iterator `it` for a sequence
of inputs, the number of in-flight handles of `it` after any number `n` of
pulls (failed ones included) is at most the prefetch window of the engine the
iterator works with, which is at most `16 * numThreads`; the priming loop holds
at most `i` handles after `i` iterations, and a pull pops one handle before it
feeds at most one, so the bound also holds between the two steps. -/
theorem streaming_window_bound {B : Type} (lib : KiwiLib B) (self self1 : KiwiObject B)
    (items : List PyObj) (topN mo : Nat) (it : KiwiResIter) (n : Nat)
    (h : self.analyze lib (.iterable items) topN mo = (.ok (.iter it), self1)) :
    (pullN lib.tagToString n it).futures.length
        ≤ prefetchWindow (pullN lib.tagToString n it).kiwi
      ∧ prefetchWindow (pullN lib.tagToString n it).kiwi ≤ 16 * self1.kiwi.getNumThreads
      ∧ (∀ i, (prime i (newResIter self1.kiwi topN mo items)).2.futures.length
          ≤ i)
      ∧ (pullN lib.tagToString n it).futures.tail.length ≤ prefetchWindow self1.kiwi := by
  obtain ⟨-, hp⟩ := analyze_iterable_inv lib self self1 items topN mo it h
  have hk : it.kiwi = self1.kiwi := by
    have := prime_kiwi (prefetchWindow self1.kiwi)
      (newResIter self1.kiwi topN mo items)
    rw [hp] at this; exact this
  have hlen : it.futures.length ≤ prefetchWindow self1.kiwi := by
    have := prime_futures_le (prefetchWindow self1.kiwi)
      (newResIter self1.kiwi topN mo items)
    rw [hp] at this; simpa [newResIter] using this
  have hn := pullN_futures_le lib.tagToString n it
  rw [pullN_kiwi, hk]
  refine ⟨by omega, prefetchWindow_le _, ?_, ?_⟩
  · intro i
    have := prime_futures_le i
      (newResIter self1.kiwi topN mo items)
    simpa [newResIter] using this
  · simp only [List.length_tail]
    omega

/-- Witness of C3: twenty texts streamed through the one-thread engine `exKiwi`;
after three pulls at most sixteen handles are in flight. -/
theorem streaming_window_bound_witness :
    (pullN exTagToString 3
        (prime 16 (newResIter exKiwi 1 0 (List.replicate 20 (PyObj.str "a")))).2).futures.length
      ≤ 16 :=
  (streaming_window_bound exLib exBuilt exBuilt (List.replicate 20 (PyObj.str "a")) 1 0
    (prime 16 (newResIter exKiwi 1 0 (List.replicate 20 (PyObj.str "a")))).2 3 rfl).1

/-! ## Lemmas on the lazy engine cache -/

theorem buildCount_append_build {B : Type} (self : KiwiObject B) (b : B) (k : Kiwi) :
    buildCount ({ builder := b, kiwi := k, calls := self.calls ++ [BuilderCall.build] } :
      KiwiObject B) = buildCount self + 1 := by
  simp [buildCount]

theorem buildCount_append_other {B : Type} (self : KiwiObject B) (b : B) (k : Kiwi)
    (c : BuilderCall) (hc : c ≠ BuilderCall.build) :
    buildCount ({ builder := b, kiwi := k, calls := self.calls ++ [c] } : KiwiObject B)
      = buildCount self := by
  simp [buildCount, List.count_singleton, hc]

/-- What `doPrepare` does on a ready engine: nothing. -/
theorem doPrepare_ready {B : Type} (lib : KiwiLib B) (self : KiwiObject B)
    (h : self.kiwi.ready = true) : self.doPrepare lib = (.ok (), self) := by
  simp [KiwiObject.doPrepare, h]

/-- What `doPrepare` does on an unbuilt engine whose build succeeds. -/
theorem doPrepare_build_ok {B : Type} (lib : KiwiLib B) (self : KiwiObject B) (k : Kiwi)
    (h : self.kiwi.ready = false) (hb : lib.build self.builder = .ok k) :
    self.doPrepare lib
      = (.ok (), { self with kiwi := k, calls := self.calls ++ [BuilderCall.build] }) := by
  simp [KiwiObject.doPrepare, h, hb]

/-- What `doPrepare` does on an unbuilt engine whose build throws. -/
theorem doPrepare_build_error {B : Type} (lib : KiwiLib B) (self : KiwiObject B) (e : String)
    (h : self.kiwi.ready = false) (hb : lib.build self.builder = .error e) :
    self.doPrepare lib
      = (.error e, { self with calls := self.calls ++ [BuilderCall.build] }) := by
  simp [KiwiObject.doPrepare, h, hb]

theorem doPrepare_buildCount {B : Type} (lib : KiwiLib B) (self : KiwiObject B) :
    buildCount (self.doPrepare lib).2
      = buildCount self + (if self.kiwi.ready then 0 else 1) := by
  cases hr : self.kiwi.ready with
  | true => simp [doPrepare_ready lib self hr]
  | false =>
    cases hb : lib.build self.builder with
    | ok k =>
      rw [doPrepare_build_ok lib self k hr hb]
      simpa using buildCount_append_build self self.builder k
    | error e =>
      rw [doPrepare_build_error lib self e hr hb]
      simpa using buildCount_append_build self self.builder self.kiwi

/-- One mutation call: the builder is never asked to build, the engine is replaced
by the unbuilt `Kiwi{}` when the call reports `true`, and is left alone
otherwise. -/
theorem mutate_effect {B : Type} (lib : KiwiLib B) (self : KiwiObject B) (m : Mutation) :
    buildCount (self.mutate lib m).2 = buildCount self
      ∧ ((self.mutate lib m).1 = .ok true → (self.mutate lib m).2.kiwi = lib.emptyKiwi)
      ∧ ((self.mutate lib m).1 ≠ .ok true → (self.mutate lib m).2.kiwi = self.kiwi) := by
  cases m with
  | addUserWord word tag score =>
    simp only [KiwiObject.mutate, KiwiObject.addUserWord]
    split
    · simp
    · rcases hw : lib.addWord self.builder word (lib.toPOSTag tag) score with ⟨r, b⟩
      cases r with
      | error e =>
        refine ⟨buildCount_append_other self b self.kiwi _ (by decide), ?_, ?_⟩ <;> simp
      | ok ret =>
        refine ⟨buildCount_append_other self b _ _ (by decide), ?_, ?_⟩
        · intro h; simp only [Except.ok.injEq] at h; simp [h]
        · intro h; simp only [ne_eq, Except.ok.injEq] at h; simp [h]
  | loadUserDictionary path =>
    simp only [KiwiObject.mutate, KiwiObject.loadUserDictionary]
    rcases hw : lib.loadDictionary self.builder path with ⟨r, b⟩
    cases r with
    | error e =>
      refine ⟨buildCount_append_other self b self.kiwi _ (by decide), ?_, ?_⟩ <;> simp
    | ok ret =>
      refine ⟨buildCount_append_other self b _ _ (by decide), ?_, ?_⟩
      · intro h; simp only [Except.ok.injEq] at h; simp [h]
      · intro h; simp only [ne_eq, Except.ok.injEq] at h; simp [h]

theorem truncate_eq_take (topN : Nat) (v : List TokenResult) :
    truncate topN v = v.take topN := by
  unfold truncate
  split
  · rfl
  · exact (List.take_of_length_le (by omega)).symm

theorem resToPyList_take (tagToString : Nat → String) (kiwi : Kiwi) (n : Nat)
    (v : List TokenResult) :
    resToPyList tagToString (v.take n) kiwi = (resToPyList tagToString v kiwi).take n := by
  simp [resToPyList, List.map_take]

/-- C5. Truncation: let `v` be an engine result. On the single-text path (the
engine returning `v`) and on the streaming path (`buildPy` of an iterator with
the same `topN`) the caller gets the conversion of the first `topN` candidates
of `v`, which is the first `topN` entries of the conversion of the whole
result, in the same order. When `v` has more than `topN` candidates the list
has exactly `topN` entries; when it has at most `topN` it is returned whole;
and when `v` is ordered by descending score no dropped candidate scores higher
than a kept one. -/
theorem truncation_top_n {B : Type} (lib : KiwiLib B) (self self1 : KiwiObject B)
    (it : KiwiResIter) (s : String) (topN mo : Nat) (v : List TokenResult)
    (hprep : self.doPrepare lib = (.ok (), self1))
    (hres : self1.kiwi.analyze s (max topN 10) mo = .ok v)
    (hit : it.topN = topN) :
    (self.analyze lib (.text s) topN mo).1
        = .ok (.list ((resToPyList lib.tagToString v self1.kiwi).take topN))
      ∧ it.buildPy lib.tagToString v = (resToPyList lib.tagToString v it.kiwi).take topN
      ∧ (topN < v.length → ((resToPyList lib.tagToString v it.kiwi).take topN).length = topN)
      ∧ (v.length ≤ topN →
          (resToPyList lib.tagToString v it.kiwi).take topN
            = resToPyList lib.tagToString v it.kiwi)
      ∧ (∀ i, i < topN →
          ((resToPyList lib.tagToString v it.kiwi).take topN)[i]?
            = (resToPyList lib.tagToString v it.kiwi)[i]?)
      ∧ (v.Pairwise (fun a b => b.2 ≤ a.2) →
          ∀ a ∈ v.take topN, ∀ b ∈ v.drop topN, b.2 ≤ a.2) := by
  refine ⟨?_, ?_, ?_, ?_, ?_, ?_⟩
  · simp [KiwiObject.analyze, hprep, hres, truncate_eq_take, resToPyList_take]
  · simp [KiwiResIter.buildPy, hit, truncate_eq_take, resToPyList_take]
  · intro h
    rw [List.length_take, resToPyList_length]
    omega
  · intro h
    exact List.take_of_length_le (by rw [resToPyList_length]; exact h)
  · intro i hi
    rw [List.getElem?_take, if_pos hi]
  · intro h a ha b hb
    have hsplit : (v.take topN ++ v.drop topN).Pairwise (fun a b => b.2 ≤ a.2) := by
      rw [List.take_append_drop]; exact h
    exact (List.pairwise_append.mp hsplit).2.2 a ha b hb

/-- Witness of C5: the example engine returns ten candidates with the scores
10, ..., 1 for a single text analysed with `top_n = 2`; the caller gets the two
with the scores 10 and 9. -/
theorem truncation_top_n_witness :
    (exBuilt.analyze exLib (.text "ab") 2 0).1
      = .ok (.list
          [([{ _form := [], _tag := "NNP", _pos := 0, _len := 2, _morphId := 0, _morph := 0 }],
              10),
           ([{ _form := [], _tag := "NNP", _pos := 0, _len := 2, _morphId := 1, _morph := 1 }],
              9)]) :=
  (truncation_top_n exLib exBuilt exBuilt (newResIter exKiwi 2 0 []) "ab" 2 0
    (exCandidates 2 10) rfl rfl rfl).1

/-! ## C6: candidate count of the streaming path -/

/-- C6, the code at the failing input. `feedNext` asks the engine for `topN`
candidates, for every iterator and text, whereas the single-text path asks for
`max(topN, 10)`. With `top_n = 1` on the example engine, whose results show the
count it was asked for, the text `"ab"` analysed alone comes back with the
candidate of score 10 (the engine was asked for 10), and streamed it comes back
with the candidate of score 1 (the engine was asked for 1). -/
theorem stream_asks_topN_not_max :
    (∀ (it : KiwiResIter) (s : String),
        it.feedNext (PyObj.str s) = .ok (it.kiwi.asyncAnalyze s it.topN it.matchOptions))
      ∧ (exBuilt.analyze exLib (.text "ab") 1 0).1
          = .ok (.list
              [([{ _form := [], _tag := "NNP", _pos := 0, _len := 2, _morphId := 0,
                    _morph := 0 }], 10)])
      ∧ drain exTagToString 1
          (prime (prefetchWindow exKiwi) (newResIter exKiwi 1 0 [PyObj.str "ab"])).2
          = [Pulled.result
              [([{ _form := [], _tag := "NNP", _pos := 0, _len := 2, _morphId := 0,
                    _morph := 0 }], 1)]]
      ∧ (∃ it, exBuilt.analyze exLib (.iterable [PyObj.str "ab"]) 1 0 = (.ok (.iter it), exBuilt)
          ∧ it = (prime (prefetchWindow exKiwi) (newResIter exKiwi 1 0 [PyObj.str "ab"])).2) :=
  ⟨fun _ _ => rfl, rfl, rfl, ⟨_, rfl, rfl⟩⟩

/-! ## C7: reader adapter -/

theorem readerCall_cons (item : U16String) (rest : List U16String) :
    readerCall (item :: rest) = (if item = [] then [32] else item, rest) := by
  cases item <;> simp [readerCall]

/-- C7. Reader adapter: the `k`-th call of a reader made from the lines `L` returns
`L[k]` when `k < |L|` and `L[k]` is not empty, the one-unit string of a blank
(unit 32) when `k < |L|` and `L[k]` is empty, and the empty string when
`k >= |L|`; hence it returns the empty string if and only if the lines are
exhausted. -/
theorem reader_nth_call (L : List U16String) (k : Nat) :
    readerNth k (obj2reader L)
        = (match L[k]? with
          | some line => if line = [] then [32] else line
          | none => [])
      ∧ (readerNth k (obj2reader L) = [] ↔ L.length ≤ k) := by
  unfold obj2reader
  induction k generalizing L with
  | zero =>
    cases L with
    | nil => simp [readerNth, readerCall]
    | cons item rest =>
      by_cases h : item = [] <;> simp [readerNth, readerCall_cons, h]
  | succ k ih =>
    cases L with
    | nil =>
      have h := ih []
      simp only [List.getElem?_nil, List.length_nil, Nat.zero_le, iff_true] at h
      simp [readerNth, readerCall, h.1]
    | cons item rest =>
      have h := ih rest
      simp only [readerNth, readerCall_cons, List.getElem?_cons_succ, List.length_cons]
      exact ⟨h.1, by rw [h.2]; omega⟩

/-! ## C8: idempotent rebuild -/

/-- C8, as amended. Idempotent rebuild: on an analyzer with an unbuilt engine whose
builder's build succeeds, returning the engine `k`, the first `doPrepare`
succeeds and stores `k`, the second one returns without changing the analyzer
(engine, builder and record of builder calls), and the two calls together
invoke the build operation exactly once. -/
theorem doPrepare_twice_builds_once {B : Type} (lib : KiwiLib B) (self : KiwiObject B)
    (k : Kiwi) (hun : self.kiwi.ready = false) (hb : lib.build self.builder = .ok k) :
    (self.doPrepare lib).1 = .ok ()
      ∧ (self.doPrepare lib).2.kiwi = k
      ∧ (self.doPrepare lib).2.doPrepare lib = (.ok (), (self.doPrepare lib).2)
      ∧ buildCount (self.doPrepare lib).2 = buildCount self + 1
      ∧ buildCount ((self.doPrepare lib).2.doPrepare lib).2 = buildCount self + 1 := by
  have h1 := doPrepare_build_ok lib self k hun hb
  have h2 : (self.doPrepare lib).2.doPrepare lib = (.ok (), (self.doPrepare lib).2) :=
    doPrepare_ready lib _ (by rw [h1]; exact lib.build_ready _ k hb)
  have h3 : buildCount (self.doPrepare lib).2 = buildCount self + 1 := by
    rw [doPrepare_buildCount, hun]; rfl
  refine ⟨by rw [h1], by rw [h1], h2, h3, by rw [h2]; exact h3⟩

/-- Witness of C8 as amended, on `exFresh`: two `doPrepare` calls, one build. -/
theorem doPrepare_twice_builds_once_witness :
    ((exFresh.doPrepare exLib).2.doPrepare exLib).2.calls = [BuilderCall.build]
      ∧ buildCount ((exFresh.doPrepare exLib).2.doPrepare exLib).2 = 1 :=
  ⟨rfl, (doPrepare_twice_builds_once exLib exFresh exKiwi rfl rfl).2.2.2.2⟩

/-- C8 as stated fails on `exBroken`, an analyzer with an unbuilt engine whose
build throws: the first `doPrepare` fails and leaves the engine unbuilt, so the
second one invokes the build operation again; two calls, two builds. -/
theorem doPrepare_retries_failed_build :
    exBroken.kiwi.ready = false
      ∧ (exBroken.doPrepare exLib).1 = .error "build failed"
      ∧ ((exBroken.doPrepare exLib).2.doPrepare exLib).2.calls
          = [BuilderCall.build, BuilderCall.build]
      ∧ buildCount ((exBroken.doPrepare exLib).2.doPrepare exLib).2 = 2
      ∧ ((exBroken.doPrepare exLib).2.doPrepare exLib).2.kiwi.ready = false :=
  ⟨rfl, rfl, rfl, rfl, rfl⟩

/-! ## C9: error atomicity of the lazy engine cache -/

/-- C9. Error atomicity: a call of `addUserWord`, `loadUserDictionary` or
`doPrepare` that fails leaves the engine as it was, so its built/unbuilt state
is unchanged; a failed `doPrepare` leaves the engine unbuilt; and an
`addUserWord` whose tag is unknown (`toPOSTag` at or above `POSTag::max`) fails
and leaves the whole analyzer unchanged, the record of builder calls included:
the builder is not invoked. -/
theorem failed_call_keeps_engine {B : Type} (lib : KiwiLib B) (self : KiwiObject B) :
    (∀ word tag score e, (self.addUserWord lib word tag score).1 = .error e →
        (self.addUserWord lib word tag score).2.kiwi = self.kiwi)
      ∧ (∀ path e, (self.loadUserDictionary lib path).1 = .error e →
        (self.loadUserDictionary lib path).2.kiwi = self.kiwi)
      ∧ (∀ e, (self.doPrepare lib).1 = .error e →
        (self.doPrepare lib).2.kiwi = self.kiwi ∧ (self.doPrepare lib).2.kiwi.ready = false)
      ∧ (∀ word tag score, lib.toPOSTag tag ≥ lib.posMax →
        (self.addUserWord lib word tag score).1 = .error ("Unknown tag value " ++ tag)
          ∧ (self.addUserWord lib word tag score).2 = self) := by
  refine ⟨?_, ?_, ?_, ?_⟩
  · intro word tag score e h
    apply (mutate_effect lib self (Mutation.addUserWord word tag score)).2.2
    show (self.addUserWord lib word tag score).1 ≠ .ok true
    rw [h]; simp
  · intro path e h
    apply (mutate_effect lib self (Mutation.loadUserDictionary path)).2.2
    show (self.loadUserDictionary lib path).1 ≠ .ok true
    rw [h]; simp
  · intro e h
    cases hr : self.kiwi.ready with
    | true => rw [doPrepare_ready lib self hr] at h; simp at h
    | false =>
      cases hb : lib.build self.builder with
      | ok k => rw [doPrepare_build_ok lib self k hr hb] at h; simp at h
      | error e2 => rw [doPrepare_build_error lib self e2 hr hb]; exact ⟨rfl, hr⟩
  · intro word tag score h
    simp [KiwiObject.addUserWord, h]

/-- Witness of C9: on `exBroken` the build throws and the engine stays unbuilt; an
`addUserWord` with the unknown tag `XX` fails without a builder call; an
`addUserWord` that the builder rejects (empty word) and a `loadUserDictionary`
that it rejects (empty path) fail on a built engine and leave it built. -/
theorem failed_call_keeps_engine_witness :
    (exBroken.doPrepare exLib).2.kiwi.ready = false
      ∧ (exBuilt.addUserWord exLib "gamgiyak" "XX" 0).2.calls = []
      ∧ (exBuilt.addUserWord exLib "" "NNP" 0).2.kiwi.ready = true
      ∧ (exBuilt.loadUserDictionary exLib "").2.kiwi.ready = true := by
  refine ⟨((failed_call_keeps_engine exLib exBroken).2.2.1 "build failed" rfl).2, ?_, ?_, ?_⟩
  · rw [((failed_call_keeps_engine exLib exBuilt).2.2.2 "gamgiyak" "XX" 0 (by decide)).2]
    rfl
  · rw [(failed_call_keeps_engine exLib exBuilt).1 "" "NNP" 0 "empty word" rfl]
    rfl
  · rw [(failed_call_keeps_engine exLib exBuilt).2.1 "" "cannot open the dictionary" rfl]
    rfl

/-! ## Lemmas on the type check of the stream -/

/-- Each codepoint outside the basic range takes two units, so the offset behind
the last of them is at least twice their number. -/
theorem wideChars_le_afterLastWide (cs : List Char) :
    2 * cs.countP isWideChar ≤ afterLastWide cs := by
  induction cs with
  | nil => simp [afterLastWide]
  | cons c cs ih =>
    unfold afterLastWide
    by_cases hc : isWideChar c = true
    · have hany : (c :: cs).any isWideChar = true := by simp [hc]
      rw [if_pos hany, List.countP_cons_of_pos _ _ hc]
      simp only [utf16Width, hc, if_true]
      omega
    · rw [List.countP_cons_of_neg _ _ hc]
      by_cases hany : (c :: cs).any isWideChar = true
      · rw [if_pos hany]
        simp only [utf16Width, hc]
        omega
      · rw [if_neg hany]
        have hnone : cs.countP isWideChar = 0 := by
          rw [List.countP_eq_zero]
          intro a ha hw
          exact hany (by simp only [List.any_cons, Bool.or_eq_true, List.any_eq_true]
                         exact Or.inr ⟨a, ha, hw⟩)
        omega

/-- C11, as amended. Offset repair against the input text: let `text` hold `k`
codepoints outside the basic range, let the token `q` at index `i` of a
candidate start after all of them, and let the forms of the tokens before it
in that candidate carry exactly these `k` wide characters (`k` units with
`(u & 0xFC00) == 0xD800`). Then `k` is at most the internal position and the
reported start is the internal position minus `k` (as a `uint32_t`, hence
exactly so for a position that fits). And for every token of the candidate
whose form contains exactly one wide character the reported length is the
internal length minus 1 (as a `uint32_t`, hence exactly so for a length from 1
that fits). -/
theorem offset_repair_against_text (tagToString : Nat → String) (kiwi : Kiwi) (text : String)
    (res : List TokenResult) (c i : Nat) (cand : TokenResult) (q : TokenInfo)
    (hc : res[c]? = some cand) (hq : cand.1[i]? = some q)
    (hcov : wideBefore cand.1 i = wideChars text)
    (hafter : afterLastWide text.toList ≤ q.position) :
    ∃ toks t, (resToPyList tagToString res kiwi)[c]? = some (toks, cand.2)
      ∧ toks[i]? = some t
      ∧ wideChars text ≤ q.position
      ∧ (t._pos : Int) = ((q.position : Int) - (wideChars text : Int)) % (2 : Int) ^ 32
      ∧ (q.position < 2 ^ 32 → t._pos = q.position - wideChars text)
      ∧ (∀ (j : Nat) (p : TokenInfo), cand.1[j]? = some p → wideCount p.str = 1 →
          ∃ u : KiwiTokenObject, toks[j]? = some u
            ∧ (u._len : Int) = ((p.length : Int) - 1) % (2 : Int) ^ 32
            ∧ (1 ≤ p.length → p.length < 2 ^ 32 → u._len = p.length - 1)) := by
  obtain ⟨t, ht, -, -, -, -, hpos, -⟩ := tokensToPy_getElem tagToString kiwi cand.1 0 i q hq
  have hk : wideChars text ≤ q.position := by
    have := wideChars_le_afterLastWide text.toList
    unfold wideChars
    omega
  rw [hcov] at hpos
  refine ⟨tokensToPy tagToString kiwi 0 cand.1, t, ?_, ht, hk, ?_, ?_, ?_⟩
  · rw [resToPyList_getElem, hc]; rfl
  · rw [hpos]; simp
  · intro h; omega
  · intro j p hp hw
    obtain ⟨u, hu, -, -, -, -, -, hlen⟩ := tokensToPy_getElem tagToString kiwi cand.1 0 j p hp
    rw [hw] at hlen
    exact ⟨u, hu, by rw [hlen]; simp, by intro h1 h2; omega⟩

/-- Witness of C11 as amended: `exCandidate` spells `exWideText`; its letter, at
internal position 2 behind the one wide character, is reported at start 1, and
its wide token of internal length 2 with length 1. -/
theorem offset_repair_against_text_witness :
    wideChars exWideText = 1
      ∧ ∃ toks t u, (resToPyList exTagToString [exCandidate] exKiwi)[0]? = some (toks, -3)
          ∧ toks[1]? = some t ∧ t._pos = 1 ∧ toks[0]? = some u ∧ u._len = 1 := by
  refine ⟨by decide, ?_⟩
  obtain ⟨toks, t, h1, h2, -, -, h3, h4⟩ :=
    offset_repair_against_text exTagToString exKiwi exWideText [exCandidate] 0 1 exCandidate
      { str := [0x61], position := 2, length := 1, tag := 1, morph := 8 } rfl rfl
      (by decide) (by decide)
  obtain ⟨u, hu, -, h5⟩ := h4 0
    { str := [0xD83D, 0xDE00], position := 0, length := 2, tag := 0, morph := 7 } rfl
    (by decide)
  exact ⟨toks, t, u, h1, h2, h3 (by decide), hu, h5 (by decide) (by decide)⟩

/-- C11 as stated fails on `exWideText` analysed by `exLetterKiwi`: the text holds
one codepoint outside the basic range, the only token of the result is the
letter at internal position 2, behind that codepoint, and it is reported at
start 2, not at 2 - 1: no earlier token carries the wide character in its
form. -/
theorem letter_after_unreported_wide_char :
    wideChars exWideText = 1
      ∧ afterLastWide exWideText.toList = 2
      ∧ exLetterKiwi.analyze exWideText (max 1 10) 0
          = .ok [([{ str := [0x61], position := 2, length := 1, tag := 0, morph := 0 }], 0)]
      ∧ (exLetters.analyze exLib (.text exWideText) 1 0).1
          = .ok (.list [([{ _form := [0x61], _tag := "NNP", _pos := 2, _len := 1,
                            _morphId := 0, _morph := 0 }], 0)])
      ∧ (2 : Nat) ≠ 2 - wideChars exWideText := by
  refine ⟨by decide, by decide, rfl, rfl, by decide⟩

/-! ## Lemmas on the order of the repaired tokens -/

theorem wideBefore_step :
    ∀ (toks : List TokenInfo) (i : Nat) (q : TokenInfo), toks[i]? = some q →
      wideBefore toks (i + 1) = wideBefore toks i + wideCount q.str := by
  intro toks
  induction toks with
  | nil => intro i q h; simp at h
  | cons q0 qs ih =>
    intro i q h
    cases i with
    | zero =>
      simp only [List.getElem?_cons_zero, Option.some.injEq] at h
      subst h
      rw [wideBefore_succ, wideBefore_zero, wideBefore_zero]
      omega
    | succ i =>
      simp only [List.getElem?_cons_succ] at h
      rw [wideBefore_succ, wideBefore_succ, ih i q h]
      omega

/-- In a candidate whose tokens do not overlap and are each at least as long as
their form has high surrogates, the running counter never exceeds the position
it is subtracted from. -/
theorem wideBefore_le_position (toks : List TokenInfo)
    (hord : ∀ i a b, toks[i]? = some a → toks[i + 1]? = some b →
      a.position + a.length ≤ b.position)
    (hlen : ∀ q ∈ toks, wideCount q.str ≤ q.length) :
    ∀ (i : Nat) (q : TokenInfo), toks[i]? = some q → wideBefore toks i ≤ q.position := by
  intro i
  induction i with
  | zero => intro q _; rw [wideBefore_zero]; exact Nat.zero_le _
  | succ i ih =>
    intro b hb
    have hi : i < toks.length := by
      have := (List.getElem?_eq_some_iff.mp hb).1
      omega
    have ha : toks[i]? = some toks[i] := List.getElem?_eq_getElem hi
    have h1 := ih _ ha
    have h2 := hord i _ b ha hb
    have h3 := hlen toks[i] (List.getElem_mem hi)
    rw [wideBefore_step toks i _ ha]
    omega

/-! ## C12: the repaired tokens stay ordered -/

/-- C12. Order of the repaired tokens: let `cand` be a candidate of a result whose
tokens satisfy `position_(i+1) >= position_i + length_i` and
`length_i >= w_i`, positions and lengths fitting the `uint32_t` fields they are
stored into. Then no subtraction of `resToPyList` underflows (`W_i` is at most
`position_i`, `w_i` at most `length_i`, and the stored start and length are
the exact differences), and the repaired tokens satisfy
`start_(i+1) >= start_i + len_i`: `end()` of a token is `start_i + len_i`
without wrapping and the next reported start is at or after it. -/
theorem repaired_tokens_ordered (tagToString : Nat → String) (kiwi : Kiwi)
    (res : List TokenResult) (c : Nat) (cand : TokenResult)
    (hc : res[c]? = some cand)
    (hord : ∀ i a b, cand.1[i]? = some a → cand.1[i + 1]? = some b →
      a.position + a.length ≤ b.position)
    (hlen : ∀ q ∈ cand.1, wideCount q.str ≤ q.length)
    (hfit : ∀ q ∈ cand.1, q.position < 2 ^ 32 ∧ q.length < 2 ^ 32) :
    ∃ toks, (resToPyList tagToString res kiwi)[c]? = some (toks, cand.2)
      ∧ (∀ i q, cand.1[i]? = some q →
          wideBefore cand.1 i ≤ q.position ∧ wideCount q.str ≤ q.length
            ∧ ∃ t, toks[i]? = some t ∧ t._pos = q.position - wideBefore cand.1 i
                ∧ t._len = q.length - wideCount q.str)
      ∧ (∀ i s t, toks[i]? = some s → toks[i + 1]? = some t →
          s._pos + s._len ≤ t._pos ∧ s.end = s._pos + s._len ∧ s.end ≤ t._pos) := by
  have hrep : ∀ i q, cand.1[i]? = some q →
      wideBefore cand.1 i ≤ q.position ∧ wideCount q.str ≤ q.length
        ∧ ∃ t, (tokensToPy tagToString kiwi 0 cand.1)[i]? = some t
            ∧ t._pos = q.position - wideBefore cand.1 i
            ∧ t._len = q.length - wideCount q.str := by
    intro i q hq
    have hmem : q ∈ cand.1 := List.getElem?_mem hq
    have h1 := wideBefore_le_position cand.1 hord hlen i q hq
    have h2 := hlen q hmem
    obtain ⟨h3, h4⟩ := hfit q hmem
    obtain ⟨t, ht, -, -, -, -, hpos, hl⟩ := tokensToPy_getElem tagToString kiwi cand.1 0 i q hq
    exact ⟨h1, h2, t, ht, by omega, by omega⟩
  refine ⟨tokensToPy tagToString kiwi 0 cand.1, ?_, hrep, ?_⟩
  · rw [resToPyList_getElem, hc]; rfl
  · intro i s t hs ht
    have hlt : i + 1 < cand.1.length := by
      have := (List.getElem?_eq_some_iff.mp ht).1
      rw [tokensToPy_length] at this
      exact this
    have ha : cand.1[i]? = some cand.1[i] := List.getElem?_eq_getElem (by omega)
    have hb : cand.1[i + 1]? = some cand.1[i + 1] := List.getElem?_eq_getElem hlt
    obtain ⟨a1, a2, s1, hs1, a3, a4⟩ := hrep i _ ha
    obtain ⟨b1, -, t1, ht1, b3, -⟩ := hrep (i + 1) _ hb
    rw [hs] at hs1
    rw [ht] at ht1
    cases hs1
    cases ht1
    have h5 := hord i _ _ ha hb
    have h6 := wideBefore_step cand.1 i _ ha
    have h7 := (hfit _ (List.getElem_mem hlt)).1
    have hsum : s._pos + s._len ≤ t._pos := by omega
    have hend : s.end = s._pos + s._len := by
      unfold KiwiTokenObject.end U32_MOD
      exact Nat.mod_eq_of_lt (by omega)
    exact ⟨hsum, hend, by omega⟩

/-- Witness of C12 on `exCandidate`: the wide token is reported at start 0 with
length 1, the next token at start 1, where the first one ends. -/
theorem repaired_tokens_ordered_witness :
    ∃ toks s t, (resToPyList exTagToString [exCandidate] exKiwi)[0]? = some (toks, -3)
      ∧ toks[0]? = some s ∧ toks[1]? = some t ∧ s.end = 1 ∧ t._pos = 1 := by
  obtain ⟨toks, h1, h2, h3⟩ :=
    repaired_tokens_ordered exTagToString exKiwi [exCandidate] 0 exCandidate rfl
      (by
        intro i a b ha hb
        match i with
        | 0 =>
          simp only [exCandidate, List.getElem?_cons_zero, List.getElem?_cons_succ,
            Option.some.injEq] at ha hb
          subst ha hb
          decide
        | i + 1 => simp [exCandidate] at hb)
      (by
        intro q hq
        simp only [exCandidate, List.mem_cons, List.mem_singleton, List.not_mem_nil,
          or_false] at hq
        rcases hq with hq | hq <;> subst hq <;> decide)
      (by
        intro q hq
        simp only [exCandidate, List.mem_cons, List.mem_singleton, List.not_mem_nil,
          or_false] at hq
        rcases hq with hq | hq <;> subst hq <;> decide)
  obtain ⟨-, -, s, hs, hs1, hs2⟩ := h2 0 _ rfl
  obtain ⟨-, -, t, ht, ht1, -⟩ := h2 1 _ rfl
  obtain ⟨-, hend, -⟩ := h3 0 s t hs ht
  refine ⟨toks, s, t, h1, hs, ht, ?_, ?_⟩
  · rw [hend, hs1, hs2]; decide
  · rw [ht1]; decide

/-! ## C13: runtime tunables live on the engine -/

end KiwiPy
